import Mathlib

/-!
# Shallow embedding of `cmd.go` (package `backend`)

The Go type `Mplayer` supervises one `mplayer -slave` child process and talks to it over
the child's standard streams.  The embedding below keeps the structure of the source:

* Go strings are byte sequences (`GoString`), so that `len`, slicing and `strings.*`
  behave as they do in Go;
* the pipes are explicit state: the command pipe records every `Write` call, the output
  pipe is the sequence of byte chunks that successive `read(2)` calls will deliver;
* every method is a function from the session state to an `Outcome` and the new state;
  an `Outcome` is a normal return, a run-time panic, or a read that blocks for ever;
* `bufio.Reader` is embedded with its buffer, because `readAns` creates a fresh one on
  every call and what is left in the buffer at return is dropped with it.
-/

namespace Backend

/-! ## Go values -/

/-- One byte of a Go string. -/
abbrev Byte := UInt8

/-- A Go `string` (equally a `[]byte`): a finite sequence of bytes. -/
abbrev GoString := List Byte

/-- The bytes of a Go string literal (source files are UTF-8). -/
def bytes (s : String) : GoString :=
  s.data.flatMap String.utf8EncodeChar

/-- Go `error` values that occur in this program. -/
inductive Error where
  /-- `errors.New(text)`. -/
  | New (text : String)
  /-- `io.EOF`. -/
  | EOF
  /-- An error reported by the operating system, by number. -/
  | Sys (errno : Nat)
  deriving DecidableEq, Repr

/-- How a call ends. `exhausted` is the embedding running out of loop budget; the budget
each caller passes is chosen so that this is never the result. -/
inductive Outcome (α : Type) where
  /-- The call returns with the given results. -/
  | returns (a : α)
  /-- The call panics (index or slice out of range, nil dereference). -/
  | panics (msg : String)
  /-- The call blocks for ever in a read. -/
  | hangs
  /-- Loop budget of the embedding used up. -/
  | exhausted
  deriving DecidableEq, Repr

/-! ## Library functions used by the source -/

/-- Go slice expression `s[lo:hi]` on a string; `none` is the bounds panic. -/
def slice (s : GoString) (lo hi : Int) : Option GoString :=
  if 0 ≤ lo ∧ lo ≤ hi ∧ hi ≤ (s.length : Int) then
    some ((s.drop lo.toNat).take (hi.toNat - lo.toNat))
  else none

/-- Go `strings.HasPrefix`: `len(s) >= len(p) && s[:len(p)] == p`. -/
def HasPrefix (s p : GoString) : Bool :=
  decide (p.length ≤ s.length) && (s.take p.length == p)

/-- Go `strings.IndexByte`: position of the first `c` in `s`, if any. -/
def IndexByte : GoString → Byte → Option Nat
  | [], _ => none
  | b :: rest, c => if b = c then some 0 else (IndexByte rest c).map (· + 1)

/-- Loop of Go `strings.genSplit` for a one-byte separator: `k` is the number of cuts
still allowed (`n - 1 - i` in the source). -/
def genSplitLoop : Nat → GoString → Byte → List GoString
  | 0, s, _ => [s]
  | k + 1, s, sep =>
    match IndexByte s sep with
    | none => [s]
    | some m => s.take m :: genSplitLoop k (s.drop (m + 1)) sep

/-- Go `strings.SplitN(s, sep, n)` for a one-byte separator and `n ≥ 0` (the program calls
it with `"="` and `2`): `n == 0` gives nil, `n` is capped at `len(s) + 1`, and at most
`n - 1` cuts are made. -/
def SplitN (s : GoString) (sep : Byte) (n : Nat) : List GoString :=
  if n = 0 then []
  else genSplitLoop (min n (s.length + 1) - 1) s sep

/-- Go `strings.Join`. -/
def Join : List GoString → GoString → GoString
  | [], _ => []
  | [a], _ => a
  | a :: b :: rest, sep => a ++ sep ++ Join (b :: rest) sep

/-- Go `fmt.Sprint` of an `int`: its decimal digits, with a leading `-` when negative. -/
def Sprint (n : Int) : GoString :=
  bytes (toString n)

/-! ## Pipes -/

/-- Write end of the command pipe (`m.stdin`). -/
structure WritePipe where
  /-- The byte slices passed to `Write`, one entry per call, oldest first. -/
  written : List GoString
  /-- Results of the coming `Write` calls, in order: `some e` is a failing write;
  `none`, and every call past the end of the list, is a successful one. -/
  faults : List (Option Error)
  deriving DecidableEq, Repr

/-- Result of the next `Write` call on the command pipe: `none` is success. -/
def WritePipe.next (w : WritePipe) : Option Error :=
  match w.faults with
  | [] => none
  | r :: _ => r

/-- One `Write` call on the command pipe: the call is recorded and gets the next result. -/
def WritePipe.Write (w : WritePipe) (p : GoString) : Option Error × WritePipe :=
  (w.next, { written := w.written ++ [p], faults := w.faults.tail })

/-- Read end of an output pipe (`m.stdout`, `m.stderr`). -/
structure ReadPipe where
  /-- What the coming `read(2)` calls find in the pipe, in order. -/
  chunks : List GoString
  /-- Once `chunks` is used up: `some e` makes every read fail with `e` (`io.EOF` when the
  child has closed its end); `none` is a child that stays silent, so the read blocks. -/
  closed : Option Error
  /-- Number of `Read` calls made so far. -/
  reads : Nat
  deriving DecidableEq, Repr

/-- Number of bytes still to come out of the pipe. -/
def ReadPipe.size (r : ReadPipe) : Nat :=
  (r.chunks.map List.length).sum

/-- One `Read(p)` call with `len(p) = n` on the pipe (`os.File.Read`): at most `n` bytes of
the first chunk are delivered and the rest of that chunk stays in the pipe; a read of zero
bytes is reported as `io.EOF`. -/
def ReadPipe.Read (r : ReadPipe) (n : Nat) : Outcome (GoString × Option Error) × ReadPipe :=
  match r.chunks with
  | [] =>
    match r.closed with
    | some e => (.returns ([], some e), { r with reads := r.reads + 1 })
    | none => (.hangs, { r with reads := r.reads + 1 })
  | c :: cs =>
    if c = [] then
      (.returns ([], some Error.EOF), { r with chunks := cs, reads := r.reads + 1 })
    else if c.length ≤ n then
      (.returns (c, none), { r with chunks := cs, reads := r.reads + 1 })
    else
      (.returns (c.take n, none), { r with chunks := c.drop n :: cs, reads := r.reads + 1 })

/-! ## `bufio.Reader` -/

/-- Go `bufio` default buffer size. -/
def defaultBufSize : Nat := 4096

/-- State of a `bufio.Reader` apart from the underlying reader, which is threaded next to it. -/
structure Reader where
  /-- Capacity `len(b.buf)`. -/
  size : Nat
  /-- The unread buffered bytes `b.buf[b.r:b.w]`. -/
  buf : GoString
  /-- Pending read error `b.err`. -/
  err : Option Error
  deriving DecidableEq, Repr

/-- Go `bufio.NewReader`: an empty buffer of the default size. -/
def NewReader : Reader :=
  { size := defaultBufSize, buf := [], err := none }

/-- Go `(*bufio.Reader).ReadString(delim)`, with the loops of `ReadSlice` and
`collectFragments` merged: `full` collects the full buffers already copied out.
Each round returns the bytes through the first `delim` in the buffer, or returns what is
buffered with the pending error, or empties a full buffer into `full`, or fills the buffer
with one `Read` of the underlying pipe. -/
def ReadStringLoop : Nat → Reader → ReadPipe → Byte → GoString →
    Outcome (GoString × Option Error) × Reader × ReadPipe
  | 0, b, rd, _, _ => (.exhausted, b, rd)
  | fuel + 1, b, rd, delim, full =>
    match IndexByte b.buf delim with
    | some i => (.returns (full ++ b.buf.take (i + 1), none), { b with buf := b.buf.drop (i + 1) }, rd)
    | none =>
      match b.err with
      | some e => (.returns (full ++ b.buf, some e), { b with buf := [], err := none }, rd)
      | none =>
        if b.size ≤ b.buf.length then
          ReadStringLoop fuel { b with buf := [] } rd delim (full ++ b.buf)
        else
          match rd.Read (b.size - b.buf.length) with
          | (.returns (p, e), rd1) => ReadStringLoop fuel { b with buf := b.buf ++ p, err := e } rd1 delim full
          | (.panics msg, rd1) => (.panics msg, b, rd1)
          | (.hangs, rd1) => (.hangs, b, rd1)
          | (.exhausted, rd1) => (.exhausted, b, rd1)

/-- Go `(*bufio.Reader).ReadString`. Every fill takes a byte out of the pipe or ends the
loop in the next round, and a flushed full buffer is followed by a fill, so
`2 * size + 3` rounds are enough. -/
def Reader.ReadString (b : Reader) (rd : ReadPipe) (delim : Byte) :
    Outcome (GoString × Option Error) × Reader × ReadPipe :=
  ReadStringLoop (2 * rd.size + 3) b rd delim []

/-! ## The session -/

/-- Go `os.Process`, with the record of the termination requests sent to it. -/
structure Process where
  /-- Process id; the reaper goroutine of `start` sets it to 0 after `Wait`. -/
  Pid : Int
  /-- Number of `Kill` calls made on the process. -/
  kills : Nat
  /-- What `Kill` returns. -/
  killResult : Option Error
  deriving DecidableEq, Repr

/-- Go `exec.Cmd`: the argument vector (`Args[0]` is the program name) and the process,
absent until the command has been started. -/
structure Cmd where
  /-- Argument vector, program name first. -/
  Args : List GoString
  /-- The started process, if any. -/
  Process : Option Process
  deriving DecidableEq, Repr

/-- Go `exec.Command(name, arg...)`. -/
def Command (name : GoString) (arg : List GoString) : Cmd :=
  { Args := name :: arg, Process := none }

/-- Go `struct Mplayer`. A nil pointer or nil interface is `none`. -/
structure Mplayer where
  /-- Field `cmd *exec.Cmd`. -/
  cmd : Option Cmd
  /-- Field `options []string`. -/
  options : List GoString
  /-- Field `file string`. -/
  file : GoString
  /-- Field `stdin io.WriteCloser`. -/
  stdin : Option WritePipe
  /-- Field `stdout io.ReadCloser`. -/
  stdout : Option ReadPipe
  /-- Field `stderr io.ReadCloser`. -/
  stderr : Option ReadPipe
  deriving DecidableEq, Repr

/-- Results of the three pipe creations `StdinPipe`, `StdoutPipe`, `StderrPipe` on a new
command: the pipe, or the error of `os.Pipe`. -/
structure Pipes where
  /-- Result of `cmd.StdinPipe()`. -/
  StdinPipe : Except Error WritePipe
  /-- Result of `cmd.StdoutPipe()`. -/
  StdoutPipe : Except Error ReadPipe
  /-- Result of `cmd.StderrPipe()`. -/
  StderrPipe : Except Error ReadPipe

/-- The error of `sendCmd` and `getProperty` on a session that is not running. -/
def errNotRunning : Error := Error.New "mplayer isn't running"

/-- The error of `prepareCmd` on an empty file name. -/
def errNoFile : Error := Error.New "no file to play"

/-- Method `prepareCmd`: builds the command `mplayer -quiet -slave <options> <file>` and
attaches the three pipes, stopping at the first pipe that cannot be created. -/
def Mplayer.prepareCmd (m : Mplayer) (sys : Pipes) : Option Error × Mplayer :=
  if m.file = [] then (some errNoFile, m)
  else
    let args : List GoString := [bytes "-quiet", bytes "-slave"]
    let args := args ++ m.options
    let args := args ++ [m.file]
    let m1 := { m with cmd := some (Command (bytes "mplayer") args) }
    match sys.StdinPipe with
    | .error e => (some e, { m1 with stdin := none })
    | .ok w =>
      let m2 := { m1 with stdin := some w }
      match sys.StdoutPipe with
      | .error e => (some e, { m2 with stdout := none })
      | .ok r =>
        let m3 := { m2 with stdout := some r }
        match sys.StderrPipe with
        | .error e => (some e, { m3 with stderr := none })
        | .ok r2 => (none, { m3 with stderr := some r2 })

/-- Method `running`: a command with a process whose pid is not 0. -/
def Mplayer.running (m : Mplayer) : Bool :=
  match m.cmd with
  | some c =>
    match c.Process with
    | some p => decide (p.Pid ≠ 0)
    | none => false
  | none => false

/-- Go `(*os.Process).Kill`: one more termination request, and the result the system gives. -/
def Process.Kill (p : Process) : Option Error × Process :=
  (p.killResult, { p with kills := p.kills + 1 })

/-- Method `kill`: `Kill` on the process when running, nothing otherwise. -/
def Mplayer.kill (m : Mplayer) : Option Error × Mplayer :=
  if m.running then
    match m.cmd with
    | some c =>
      match c.Process with
      | some p => ((p.Kill).1, { m with cmd := some { c with Process := some (p.Kill).2 } })
      | none => (none, m)
    | none => (none, m)
  else (none, m)

/-- Method `sendCmd`: one `Write` of `fmt.Sprintf("%v %v\n", name, strings.Join(args, " "))`. -/
def Mplayer.sendCmd (m : Mplayer) (name : GoString) (args : List GoString) :
    Outcome (Option Error) × Mplayer :=
  if !m.running then (.returns (some errNotRunning), m)
  else
    match m.stdin with
    | none => (.panics "nil pointer dereference", m)
    | some w =>
      let r := w.Write (name ++ bytes " " ++ Join args (bytes " ") ++ bytes "\n")
      match r.1 with
      | some e => (.returns (some e), { m with stdin := some r.2 })
      | none => (.returns none, { m with stdin := some r.2 })

/-- The last two statements of `readAns`:
`splitted := strings.SplitN(line[4:len(line)-1], "=", 2); return splitted[0], splitted[1], nil`.
Byte 61 is `=`. -/
def decodeAns (line : GoString) : Outcome (GoString × GoString × Option Error) :=
  match slice line 4 ((line.length : Int) - 1) with
  | none => .panics "slice bounds out of range"
  | some s =>
    let splitted := SplitN s 61 2
    match splitted.get? 0, splitted.get? 1 with
    | some a, some b => .returns (a, b, none)
    | _, _ => .panics "index out of range"

/-- The `for` loop of `readAns`: read lines until one starts with `ANS_`. The result is the
line with no error (the `break`), or the read error (the early `return`). Byte 10 is the
newline. -/
def readAnsLoop : Nat → Reader → ReadPipe → Outcome (GoString × Option Error) × Reader × ReadPipe
  | 0, b, rd => (.exhausted, b, rd)
  | fuel + 1, b, rd =>
    match b.ReadString rd 10 with
    | (.returns (line, none), b1, rd1) =>
      if HasPrefix line (bytes "ANS_") then (.returns (line, none), b1, rd1)
      else readAnsLoop fuel b1 rd1
    | other => other

/-- Method `readAns`. A new `bufio.Reader` is put around `m.stdout`; when the method
returns only the pipe survives, the reader and what it has buffered do not.
Every line read takes a byte out of the pipe, so `size + 1` rounds are enough. -/
def Mplayer.readAns (m : Mplayer) : Outcome (GoString × GoString × Option Error) × Mplayer :=
  match m.stdout with
  | none => (.panics "nil pointer dereference", m)
  | some rd =>
    match readAnsLoop (rd.size + 1) NewReader rd with
    | (.returns (_, some e), _, rd1) => (.returns ([], [], some e), { m with stdout := some rd1 })
    | (.returns (line, none), _, rd1) => (decodeAns line, { m with stdout := some rd1 })
    | (.panics msg, _, rd1) => (.panics msg, { m with stdout := some rd1 })
    | (.hangs, _, rd1) => (.hangs, { m with stdout := some rd1 })
    | (.exhausted, _, rd1) => (.exhausted, { m with stdout := some rd1 })

/-- The `for` loop of `getProperty`: call `readAns` until the answer carries `name`. -/
def getPropertyLoop : Nat → Mplayer → GoString → Outcome (GoString × Option Error) × Mplayer
  | 0, m, _ => (.exhausted, m)
  | fuel + 1, m, name =>
    match m.readAns with
    | (.returns (_, _, some e), m1) => (.returns ([], some e), m1)
    | (.returns (ansName, value, none), m1) =>
      if ansName = name then (.returns (value, none), m1)
      else getPropertyLoop fuel m1 name
    | (.panics msg, m1) => (.panics msg, m1)
    | (.hangs, m1) => (.hangs, m1)
    | (.exhausted, m1) => (.exhausted, m1)

/-- Loop budget of `getProperty`: every answer read takes a byte out of the pipe. -/
def Mplayer.budget (m : Mplayer) : Nat :=
  match m.stdout with
  | some rd => rd.size + 1
  | none => 1

/-- Method `getProperty`. -/
def Mplayer.getProperty (m : Mplayer) (name : GoString) :
    Outcome (GoString × Option Error) × Mplayer :=
  if !m.running then (.returns ([], some errNotRunning), m)
  else
    match m.sendCmd (bytes "pausing_keep get_property " ++ name) [] with
    | (.returns (some e), m1) => (.returns ([], some e), m1)
    | (.returns none, m1) => getPropertyLoop m1.budget m1 name
    | (.panics msg, m1) => (.panics msg, m1)
    | (.hangs, m1) => (.hangs, m1)
    | (.exhausted, m1) => (.exhausted, m1)

/-- Method `setProperty`. -/
def Mplayer.setProperty (m : Mplayer) (name value : GoString) : Outcome (Option Error) × Mplayer :=
  m.sendCmd (bytes "pausing_keep set_property") [name, value]

/-- Method `Path`. -/
def Mplayer.Path (m : Mplayer) : Outcome (GoString × Option Error) × Mplayer :=
  m.getProperty (bytes "path")

/-- The `float64` side of `Length` and `Position`: the type, the constant `-1` and
`strconv.ParseFloat(s, 64)`, none of which the embedding looks into. -/
structure Float64 where
  /-- Carrier of `float64` values. -/
  F : Type
  /-- The value `-1`. -/
  negOne : F
  /-- Go `strconv.ParseFloat(s, 64)`. -/
  ParseFloat : GoString → F × Option Error

/-- Shared body of `Length` and `Position`: query the property, and parse the answer. -/
def Mplayer.floatProperty (fl : Float64) (m : Mplayer) (name : GoString) :
    Outcome (fl.F × Option Error) × Mplayer :=
  match m.getProperty name with
  | (.returns (_, some e), m1) => (.returns (fl.negOne, some e), m1)
  | (.returns (s, none), m1) => (.returns (fl.ParseFloat s), m1)
  | (.panics msg, m1) => (.panics msg, m1)
  | (.hangs, m1) => (.hangs, m1)
  | (.exhausted, m1) => (.exhausted, m1)

/-- Method `Length`. -/
def Mplayer.Length (fl : Float64) (m : Mplayer) : Outcome (fl.F × Option Error) × Mplayer :=
  m.floatProperty fl (bytes "length")

/-- Method `Position`. -/
def Mplayer.Position (fl : Float64) (m : Mplayer) : Outcome (fl.F × Option Error) × Mplayer :=
  m.floatProperty fl (bytes "time_pos")

/-- Method `Playing`. -/
def Mplayer.Playing (m : Mplayer) : Bool :=
  m.running

/-- Method `Pause`. -/
def Mplayer.Pause (m : Mplayer) : Outcome (Option Error) × Mplayer :=
  m.sendCmd (bytes "pause") []

/-- Method `Stop`. -/
def Mplayer.Stop (m : Mplayer) : Option Error × Mplayer :=
  m.kill

/-- Method `Seek`. -/
def Mplayer.Seek (m : Mplayer) (second : Int) : Outcome (Option Error) × Mplayer :=
  m.sendCmd (bytes "seek") [Sprint second, bytes "2"]

/-- Go `(*exec.Cmd).Start` on a command that has not been started: the system gives the
new process with its id, or an error. -/
def Cmd.Start (c : Cmd) (spawn : Except Error Int) : Option Error × Cmd :=
  match c.Process with
  | some _ => (some (Error.New "exec: already started"), c)
  | none =>
    match spawn with
    | .error e => (some e, c)
    | .ok pid => (none, { c with Process := some { Pid := pid, kills := 0, killResult := none } })

/-- Method `start`, up to the launch of the reaper goroutine: kill what runs, build the
command and its pipes, start the process. What the goroutine does later is `reap`. -/
def Mplayer.start (m : Mplayer) (sys : Pipes) (spawn : Except Error Int) :
    Outcome (Option Error) × Mplayer :=
  let k := if m.running then m.kill else (none, m)
  match k.1 with
  | some e => (.returns (some e), k.2)
  | none =>
    let p := k.2.prepareCmd sys
    match p.1 with
    | some e => (.returns (some e), p.2)
    | none =>
      match p.2.cmd with
      | none => (.panics "nil pointer dereference", p.2)
      | some c =>
        let r := c.Start spawn
        match r.1 with
        | some e => (.returns (some e), { p.2 with cmd := some r.2 })
        | none => (.returns none, { p.2 with cmd := some r.2 })

/-- The body of the goroutine of `start` once `c.Wait()` has returned: `c.Process.Pid = 0`. -/
def Mplayer.reap (m : Mplayer) : Mplayer :=
  match m.cmd with
  | some c =>
    match c.Process with
    | some p => { m with cmd := some { c with Process := some { p with Pid := 0 } } }
    | none => m
  | none => m

/-- A running session has its command pipe and its output pipe attached. -/
def Mplayer.attached (m : Mplayer) : Prop :=
  m.running = true → (∃ w, m.stdin = some w) ∧ (∃ r, m.stdout = some r)

/-! ## Concrete sessions used in the evaluations below -/

/-- A started session of `test.webm` with process id 4242, nothing written yet, and the
given output pipe. -/
def liveSession (out : ReadPipe) : Mplayer :=
  { cmd := some { Args := [bytes "mplayer", bytes "-quiet", bytes "-slave", bytes "test.webm"],
                  Process := some { Pid := 4242, kills := 0, killResult := none } },
    options := [],
    file := bytes "test.webm",
    stdin := some { written := [], faults := [] },
    stdout := some out,
    stderr := some { chunks := [], closed := none, reads := 0 } }

/-- A session as `NewMplayer` returns it: no command, no pipes. -/
def freshSession : Mplayer :=
  { cmd := none, options := [], file := bytes "test.webm",
    stdin := none, stdout := none, stderr := none }

/-- An output pipe that delivers the given texts, one per read, and then behaves as `closed`
says. -/
def pipeOf (texts : List String) (closed : Option Error) : ReadPipe :=
  { chunks := texts.map bytes, closed := closed, reads := 0 }

/-- Scan for `completeLines`: `cur` is the line being collected. -/
def completeLinesFrom : GoString → GoString → List GoString
  | [], _ => []
  | b :: rest, cur =>
    if b = 10 then (cur ++ [10]) :: completeLinesFrom rest []
    else completeLinesFrom rest (cur ++ [b])

/-- The complete lines of a byte stream, each with its newline; bytes after the last newline
are not a line. -/
def completeLines (s : GoString) : List GoString :=
  completeLinesFrom s []

/-- An output pipe that is closed and empty. -/
def closedPipe : ReadPipe :=
  { chunks := [], closed := some Error.EOF, reads := 0 }

/-- A started session whose player has gone away without being reaped yet: the command
pipe is broken and the next write fails with `EPIPE` (errno 32). -/
def brokenSession : Mplayer :=
  { liveSession closedPipe with stdin := some { written := [], faults := [some (Error.Sys 32)] } }

/-- A started session whose process has exited and been reaped. -/
def reapedSession : Mplayer :=
  (liveSession closedPipe).reap

/-- A `float64` stand-in that keeps a number as its text, for evaluating `Length` and
`Position` where no parsing takes place. -/
def textFloat : Float64 :=
  { F := GoString, negOne := bytes "-1", ParseFloat := fun s => (s, none) }

/-- Pipe creations that all succeed, with fresh pipes. -/
def freshPipes : Pipes :=
  { StdinPipe := .ok { written := [], faults := [] },
    StdoutPipe := .ok { chunks := [], closed := none, reads := 0 },
    StderrPipe := .ok { chunks := [], closed := none, reads := 0 } }

/-! ## Library functions -/

/-- `Join` puts the separator between the elements, as `List.intercalate` does. -/
theorem Join_eq_intercalate (elems : List GoString) (sep : GoString) :
    Join elems sep = sep.intercalate elems := by
  induction elems with
  | nil => simp [Join, List.intercalate]
  | cons a rest ih =>
    cases rest with
    | nil => simp [Join, List.intercalate]
    | cons b rest =>
      rw [Join, ih]
      simp [List.intercalate, List.append_assoc]

/-- `Sprint` on some integers, the largest and smallest `int` among them. -/
theorem Sprint_examples :
    Sprint 0 = bytes "0" ∧ Sprint 30 = bytes "30" ∧ Sprint (-12) = bytes "-12" ∧
    Sprint 9223372036854775807 = bytes "9223372036854775807" ∧
    Sprint (-9223372036854775808) = bytes "-9223372036854775808" := by
  decide

/-! ## Liveness and the commands that need it -/

/-- A session is not running exactly when it has no command object, or no process handle,
or a process id of 0. -/
theorem running_eq_false_iff (m : Mplayer) :
    m.running = false ↔
      m.cmd = none ∨ (∃ c, m.cmd = some c ∧ c.Process = none) ∨
        (∃ c p, m.cmd = some c ∧ c.Process = some p ∧ p.Pid = 0) := by
  unfold Mplayer.running
  cases hc : m.cmd with
  | none => simp
  | some c =>
    cases hp : c.Process with
    | none => simp [hp]
    | some p => simp [hp]

/-- On a running session with its command pipe attached, `sendCmd` makes one `Write` call
with the formatted line and returns the result of that call. -/
theorem sendCmd_running (m : Mplayer) (w : WritePipe) (name : GoString) (args : List GoString)
    (hr : m.running = true) (hw : m.stdin = some w) :
    m.sendCmd name args =
      (.returns w.next,
        { m with
          stdin := some
            ⟨w.written ++ [name ++ bytes " " ++ Join args (bytes " ") ++ bytes "\n"],
              w.faults.tail⟩ }) := by
  unfold Mplayer.sendCmd
  simp only [hr, hw, WritePipe.Write]
  cases w.next <;> rfl

/-- On a session that is not running, `sendCmd` returns the not-running error and leaves
the session as it was. -/
theorem sendCmd_not_running (m : Mplayer) (name : GoString) (args : List GoString)
    (h : m.running = false) :
    m.sendCmd name args = (.returns (some errNotRunning), m) := by
  simp [Mplayer.sendCmd, h]

/-- On a session that is not running, `getProperty` returns the not-running error and leaves
the session as it was. -/
theorem getProperty_not_running (m : Mplayer) (name : GoString) (h : m.running = false) :
    m.getProperty name = (.returns ([], some errNotRunning), m) := by
  simp [Mplayer.getProperty, h]

/-- Claim C3: on a session that is not live, `sendCmd`, `getProperty`, `setProperty`, `Pause`,
`Seek`, `Path`, `Length` and `Position` each return the not-running error (`Length` and
`Position` next to the value `-1`, the string-valued queries next to the empty string) and
leave the whole session state as it was: no `Write` call on the command pipe is recorded, no
`Read` call on the output pipe is counted and no chunk is taken from it. -/
theorem not_running_rejects (fl : Float64) (m : Mplayer) (name value : GoString)
    (args : List GoString) (second : Int) (h : m.running = false) :
    m.sendCmd name args = (.returns (some errNotRunning), m) ∧
    m.getProperty name = (.returns ([], some errNotRunning), m) ∧
    m.setProperty name value = (.returns (some errNotRunning), m) ∧
    m.Pause = (.returns (some errNotRunning), m) ∧
    m.Seek second = (.returns (some errNotRunning), m) ∧
    m.Path = (.returns ([], some errNotRunning), m) ∧
    m.Length fl = (.returns (fl.negOne, some errNotRunning), m) ∧
    m.Position fl = (.returns (fl.negOne, some errNotRunning), m) := by
  refine ⟨sendCmd_not_running m _ _ h, getProperty_not_running m _ h,
    sendCmd_not_running m _ _ h, sendCmd_not_running m _ _ h, sendCmd_not_running m _ _ h,
    getProperty_not_running m _ h, ?_, ?_⟩
  · simp [Mplayer.Length, Mplayer.floatProperty, getProperty_not_running m _ h]
  · simp [Mplayer.Position, Mplayer.floatProperty, getProperty_not_running m _ h]

/-- Witness of C3 on a session that was never started. -/
theorem not_running_rejects_witness :
    freshSession.running = false ∧
    (freshSession.sendCmd (bytes "quit") [] = (.returns (some errNotRunning), freshSession) ∧
     freshSession.getProperty (bytes "path") = (.returns ([], some errNotRunning), freshSession) ∧
     freshSession.setProperty (bytes "path") (bytes "1")
       = (.returns (some errNotRunning), freshSession) ∧
     freshSession.Pause = (.returns (some errNotRunning), freshSession) ∧
     freshSession.Seek 30 = (.returns (some errNotRunning), freshSession) ∧
     freshSession.Path = (.returns ([], some errNotRunning), freshSession) ∧
     freshSession.Length textFloat = (.returns (textFloat.negOne, some errNotRunning), freshSession) ∧
     freshSession.Position textFloat
       = (.returns (textFloat.negOne, some errNotRunning), freshSession)) :=
  ⟨by decide, not_running_rejects textFloat freshSession (bytes "path") (bytes "1") [] 30 (by decide)⟩

/-- Claim C4: on a live session with its command pipe attached, `sendCmd(name, args...)`
makes exactly one `Write` call whose bytes are `name`, one space, the arguments joined by
single spaces, and a newline; when that write succeeds the result is no error and nothing
else of the session changes, and when it fails with `e` the result is `e`. -/
theorem sendCmd_one_line (m : Mplayer) (w : WritePipe) (name : GoString) (args : List GoString)
    (hr : m.running = true) (hw : m.stdin = some w) :
    (m.sendCmd name args).2 =
        { m with
          stdin := some
            ⟨w.written ++ [name ++ bytes " " ++ Join args (bytes " ") ++ bytes "\n"],
              w.faults.tail⟩ } ∧
    (w.next = none → (m.sendCmd name args).1 = .returns none) ∧
    (∀ e, w.next = some e → (m.sendCmd name args).1 = .returns (some e)) := by
  rw [sendCmd_running m w name args hr hw]
  refine ⟨rfl, ?_, ?_⟩
  · intro h; simp [h]
  · intro e h; simp [h]

/-- Witness of C4: `set_property volume 50` on a started session, and the same command on a
session whose command pipe is broken. -/
theorem sendCmd_one_line_witness :
    (liveSession closedPipe).running = true ∧
    (liveSession closedPipe).stdin = some ⟨[], []⟩ ∧
    ((liveSession closedPipe).sendCmd (bytes "set_property") [bytes "volume", bytes "50"]).2.stdin
      = some ⟨[bytes "set_property volume 50\n"], []⟩ ∧
    ((liveSession closedPipe).sendCmd (bytes "set_property") [bytes "volume", bytes "50"]).1
      = .returns none ∧
    brokenSession.running = true ∧
    (brokenSession.sendCmd (bytes "set_property") [bytes "volume", bytes "50"]).2.stdin
      = some ⟨[bytes "set_property volume 50\n"], []⟩ ∧
    (brokenSession.sendCmd (bytes "set_property") [bytes "volume", bytes "50"]).1
      = .returns (some (Error.Sys 32)) :=
  ⟨by decide, by decide,
    by
      rw [(sendCmd_one_line (liveSession closedPipe) ⟨[], []⟩ (bytes "set_property")
        [bytes "volume", bytes "50"] (by decide) (by decide)).1]
      decide,
    (sendCmd_one_line (liveSession closedPipe) ⟨[], []⟩ (bytes "set_property")
      [bytes "volume", bytes "50"] (by decide) (by decide)).2.1 (by decide),
    by decide,
    by
      rw [(sendCmd_one_line brokenSession ⟨[], [some (Error.Sys 32)]⟩ (bytes "set_property")
        [bytes "volume", bytes "50"] (by decide) (by decide)).1]
      decide,
    (sendCmd_one_line brokenSession ⟨[], [some (Error.Sys 32)]⟩ (bytes "set_property")
      [bytes "volume", bytes "50"] (by decide) (by decide)).2.2 _ (by decide)⟩

/-! ## Building the command -/

/-- Claim C5: for a non-empty file, the command that `prepareCmd` stores is `mplayer` with
the argument vector `-quiet`, `-slave`, then the options in their order, then the file, and
it has no process yet (whatever happens to the pipes afterwards); for an empty file
`prepareCmd` returns the error `no file to play` and leaves the session, its command
included, as it was. -/
theorem prepareCmd_args (m : Mplayer) (sys : Pipes) :
    (m.file ≠ [] →
      (m.prepareCmd sys).2.cmd =
        some ⟨bytes "mplayer" :: ([bytes "-quiet", bytes "-slave"] ++ m.options ++ [m.file]),
          none⟩) ∧
    (m.file = [] → m.prepareCmd sys = (some errNoFile, m)) := by
  constructor
  · intro hf
    unfold Mplayer.prepareCmd
    rw [if_neg hf]
    cases sys.StdinPipe <;> cases sys.StdoutPipe <;> cases sys.StderrPipe <;> rfl
  · intro hf
    simp [Mplayer.prepareCmd, hf]

/-- Witness of C5: a session with two options, and a session with an empty file name. -/
theorem prepareCmd_args_witness :
    (({ freshSession with options := [bytes "-fs", bytes "-alang"] }.prepareCmd freshPipes).2.cmd =
        some ⟨[bytes "mplayer", bytes "-quiet", bytes "-slave", bytes "-fs", bytes "-alang",
          bytes "test.webm"], none⟩) ∧
    ({ freshSession with file := [] }.prepareCmd freshPipes
        = (some errNoFile, { freshSession with file := [] })) :=
  ⟨(prepareCmd_args { freshSession with options := [bytes "-fs", bytes "-alang"] } freshPipes).1
      (by decide),
    (prepareCmd_args { freshSession with file := [] } freshPipes).2 rfl⟩

/-! ## Commands -/

/-- Claim C6: on a live session with its command pipe attached, `Seek(n)` makes exactly one
`Write` call, whose bytes are `seek`, a space, the decimal digits of `n`, a space, `2` and a
newline; the call returns what that write returns and changes nothing else. -/
theorem Seek_one_line (m : Mplayer) (w : WritePipe) (n : Int)
    (hr : m.running = true) (hw : m.stdin = some w) :
    m.Seek n =
      (.returns w.next,
        { m with
          stdin := some ⟨w.written ++ [bytes "seek " ++ Sprint n ++ bytes " 2\n"], w.faults.tail⟩ }) := by
  unfold Mplayer.Seek
  rw [sendCmd_running m w _ _ hr hw]
  have e : bytes "seek" ++ bytes " " ++ Join [Sprint n, bytes "2"] (bytes " ") ++ bytes "\n"
      = bytes "seek " ++ Sprint n ++ bytes " 2\n" := by
    have h1 : bytes "seek " = bytes "seek" ++ bytes " " := by decide
    have h2 : bytes " 2\n" = bytes " " ++ bytes "2" ++ bytes "\n" := by decide
    rw [h1, h2]
    simp [Join, List.append_assoc]
  rw [e]

/-- Witness of C6: `Seek(30)` on a started session writes the one line `seek 30 2`. -/
theorem Seek_one_line_witness :
    (liveSession closedPipe).running = true ∧
    (liveSession closedPipe).stdin = some ⟨[], []⟩ ∧
    (liveSession closedPipe).Seek 30 =
      (.returns (⟨[], []⟩ : WritePipe).next,
        { liveSession closedPipe with
          stdin := some ⟨[] ++ [bytes "seek " ++ Sprint 30 ++ bytes " 2\n"],
            ([] : List (Option Error)).tail⟩ }) ∧
    bytes "seek " ++ Sprint 30 ++ bytes " 2\n" = bytes "seek 30 2\n" ∧
    ((liveSession closedPipe).Seek 30).2.stdin = some ⟨[bytes "seek 30 2\n"], []⟩ :=
  ⟨by decide, by decide, Seek_one_line (liveSession closedPipe) ⟨[], []⟩ 30 (by decide) (by decide),
    by decide, by decide⟩

/-- The line that `Pause` writes is `pause`, one space, and a newline: the format of
`sendCmd` puts the space between the name and the (empty) argument list. -/
theorem Pause_running (m : Mplayer) (w : WritePipe) (hr : m.running = true)
    (hw : m.stdin = some w) :
    m.Pause =
      (.returns w.next,
        { m with stdin := some ⟨w.written ++ [bytes "pause \n"], w.faults.tail⟩ }) := by
  unfold Mplayer.Pause
  rw [sendCmd_running m w _ _ hr hw]
  rfl

/-- Claim C7 as stated fails: on a started session `Pause` writes one line, and that line
is `pause` followed by a space and a newline, not `pause` followed by a newline. -/
theorem Pause_line_not_bare :
    ((liveSession closedPipe).Pause).1 = .returns none ∧
    ((liveSession closedPipe).Pause).2.stdin = some ⟨[bytes "pause \n"], []⟩ ∧
    ((liveSession closedPipe).Pause).2.stdin ≠ some ⟨[bytes "pause\n"], []⟩ := by
  decide

/-- Claim C7, amended: on a live session whose command pipe is attached and whose writes
succeed, each `Pause` returns no error, makes exactly one `Write` call with the bytes
`pause`, one space and a newline, and leaves the command object, and so the liveness, as
it was; after two calls in a row exactly two such lines have been written and the session
is live after each. -/
theorem Pause_twice (m : Mplayer) (w : WritePipe) (hr : m.running = true)
    (hw : m.stdin = some w) (hok : ∀ r ∈ w.faults, r = none) :
    m.Pause.1 = .returns none ∧
    m.Pause.2 = { m with stdin := some ⟨w.written ++ [bytes "pause \n"], w.faults.tail⟩ } ∧
    m.Pause.2.running = true ∧
    m.Pause.2.Pause.1 = .returns none ∧
    m.Pause.2.Pause.2 =
      { m with
        stdin := some ⟨w.written ++ [bytes "pause \n", bytes "pause \n"], w.faults.tail.tail⟩ } ∧
    m.Pause.2.Pause.2.running = true := by
  have hn : w.next = none := by
    unfold WritePipe.next
    cases hf : w.faults with
    | nil => rfl
    | cons r rest => exact hok r (by simp [hf])
  have hn2 : (⟨w.written ++ [bytes "pause \n"], w.faults.tail⟩ : WritePipe).next = none := by
    unfold WritePipe.next
    cases hf : w.faults.tail with
    | nil => rfl
    | cons r rest =>
      exact hok r (List.mem_of_mem_tail (by simp [hf]))
  have h1 := Pause_running m w hr hw
  have hr1 : ({ m with stdin := some ⟨w.written ++ [bytes "pause \n"], w.faults.tail⟩ }
      : Mplayer).running = true := hr
  have h2 := Pause_running _ ⟨w.written ++ [bytes "pause \n"], w.faults.tail⟩ hr1 rfl
  rw [h1]
  refine ⟨by simp [hn], rfl, hr1, ?_, ?_, ?_⟩
  · show (Mplayer.Pause _).1 = _
    rw [h2]; simp [hn2]
  · show (Mplayer.Pause _).2 = _
    rw [h2]; simp
  · show (Mplayer.Pause _).2.running = _
    rw [h2]; exact hr

/-- Witness of C7 amended, on a started session. -/
theorem Pause_twice_witness :
    (liveSession closedPipe).running = true ∧
    (liveSession closedPipe).stdin = some ⟨[], []⟩ ∧
    (∀ r ∈ (⟨[], []⟩ : WritePipe).faults, r = none) ∧
    ((liveSession closedPipe).Pause.1 = .returns none ∧
     (liveSession closedPipe).Pause.2 =
       { liveSession closedPipe with
         stdin := some ⟨[] ++ [bytes "pause \n"], ([] : List (Option Error)).tail⟩ } ∧
     (liveSession closedPipe).Pause.2.running = true ∧
     (liveSession closedPipe).Pause.2.Pause.1 = .returns none ∧
     (liveSession closedPipe).Pause.2.Pause.2 =
       { liveSession closedPipe with
         stdin := some ⟨[] ++ [bytes "pause \n", bytes "pause \n"],
           ([] : List (Option Error)).tail.tail⟩ } ∧
     (liveSession closedPipe).Pause.2.Pause.2.running = true) :=
  ⟨by decide, by decide, by decide,
    Pause_twice (liveSession closedPipe) ⟨[], []⟩ (by decide) (by decide) (by decide)⟩

/-! ## Stopping -/

/-- Claim C9: on a session that is not live, `Stop` and `kill` return no error and leave the
whole session as it was, so no `Kill` call is recorded on any process. -/
theorem Stop_not_running (m : Mplayer) (h : m.running = false) :
    m.Stop = (none, m) ∧ m.kill = (none, m) := by
  simp [Mplayer.Stop, Mplayer.kill, h]

/-- Witness of C9: a session that was never started, and one whose process has been reaped. -/
theorem Stop_not_running_witness :
    freshSession.running = false ∧
    (freshSession.Stop = (none, freshSession) ∧ freshSession.kill = (none, freshSession)) ∧
    reapedSession.running = false ∧
    (reapedSession.Stop = (none, reapedSession) ∧ reapedSession.kill = (none, reapedSession)) :=
  ⟨by decide, Stop_not_running freshSession (by decide), by decide,
    Stop_not_running reapedSession (by decide)⟩

/-! ## Reading answers -/

/-- `IndexByte` finds nothing exactly when the byte does not occur. -/
theorem IndexByte_eq_none_iff (s : GoString) (c : Byte) : IndexByte s c = none ↔ c ∉ s := by
  induction s with
  | nil => simp [IndexByte]
  | cons b rest ih =>
    unfold IndexByte
    by_cases h : b = c
    · simp [h]
    · simp [h, ih, Ne.symm h]

/-- `IndexByte` finds the first occurrence. -/
theorem IndexByte_append (pre post : GoString) (c : Byte) (h : c ∉ pre) :
    IndexByte (pre ++ c :: post) c = some pre.length := by
  induction pre with
  | nil => simp [IndexByte]
  | cons b rest ih =>
    have hb : b ≠ c := fun e => h (by simp [e])
    have hr : c ∉ rest := fun e => h (by simp [e])
    simp [IndexByte, hb, ih hr]

/-- Slicing off a head and the last byte is within bounds and leaves the middle. -/
theorem slice_inner (a mid : GoString) (z : Byte) :
    slice (a ++ mid ++ [z]) a.length (((a ++ mid ++ [z]).length : Int) - 1) = some mid := by
  unfold slice
  have hlen : (a ++ mid ++ [z]).length = a.length + mid.length + 1 := by simp [Nat.add_assoc]
  rw [hlen]
  have hc : (0 : Int) ≤ (a.length : Int) ∧ (a.length : Int) ≤ ((a.length + mid.length + 1 : Nat) : Int) - 1 ∧
      ((a.length + mid.length + 1 : Nat) : Int) - 1 ≤ ((a.length + mid.length + 1 : Nat) : Int) := by
    push_cast; omega
  rw [if_pos hc]
  have h1 : ((a.length : Int)).toNat = a.length := by simp
  have h2 : (((a.length + mid.length + 1 : Nat) : Int) - 1).toNat = a.length + mid.length := by
    push_cast; omega
  rw [h1, h2]
  simp [List.append_assoc]

/-- `SplitN(_, "=", 2)` cuts at the first `=` (byte 61) only. -/
theorem SplitN_first_eq (s v : GoString) (hs : (61 : Byte) ∉ s) :
    SplitN (s ++ 61 :: v) 61 2 = [s, v] := by
  unfold SplitN
  have hm : min 2 ((s ++ 61 :: v).length + 1) - 1 = 1 := by
    simp; omega
  rw [if_neg (by decide), hm]
  simp [genSplitLoop, IndexByte_append s v 61 hs]

/-- The decoding step of `readAns` on a line `ANS_<s>=<v>` with no `=` in `s`. -/
theorem decodeAns_answer (s v : GoString) (hs : (61 : Byte) ∉ s) :
    decodeAns (bytes "ANS_" ++ s ++ [61] ++ v ++ [10]) = .returns (s, v, none) := by
  unfold decodeAns
  have e : bytes "ANS_" ++ s ++ [61] ++ v ++ [10] = bytes "ANS_" ++ (s ++ 61 :: v) ++ [10] := by
    simp [List.append_assoc]
  have h4 : ((4 : Int)) = ((bytes "ANS_").length : Int) := by decide
  rw [e, h4, slice_inner]
  simp [SplitN_first_eq s v hs]


/-- A delimiter that is already buffered: the buffer holds the whole line. -/
theorem split_of_mem (buf flat pre post : GoString) (d : Byte)
    (h : buf ++ flat = pre ++ d :: post) (hpre : d ∉ pre) (hmem : d ∈ buf) :
    ∃ rest, buf = pre ++ d :: rest := by
  rcases List.append_eq_append_iff.1 h with ⟨a, ha, _⟩ | ⟨c, hc, hc2⟩
  · exact absurd (by rw [ha]; simp [hmem]) hpre
  · cases c with
    | nil => exact absurd (by simpa [hc] using hmem) hpre
    | cons x c =>
      simp at hc2
      exact ⟨c, by rw [hc, hc2.1]⟩

/-- No delimiter buffered yet: the buffer is the start of the line. -/
theorem split_of_not_mem (buf flat pre post : GoString) (d : Byte)
    (h : buf ++ flat = pre ++ d :: post) (hmem : d ∉ buf) :
    ∃ more, pre = buf ++ more ∧ flat = more ++ d :: post := by
  rcases List.append_eq_append_iff.1 h with ⟨a, ha, ha2⟩ | ⟨c, hc, hc2⟩
  · exact ⟨a, ha, ha2⟩
  · cases c with
    | nil => exact ⟨[], by simpa using hc.symm, by simpa using hc2.symm⟩
    | cons x c =>
      simp at hc2
      exact absurd (by rw [hc, hc2.1]; simp) hmem

/-- `ReadString` returns the bytes through the first delimiter and leaves the reader holding
what follows: the rest of the buffer, then the rest of the pipe. -/
theorem ReadStringLoop_rest (delim : Byte) :
    ∀ (fuel : Nat) (b : Reader) (rd : ReadPipe) (full pre post : GoString),
      b.err = none → 0 < b.size → (∀ c ∈ rd.chunks, c ≠ []) →
      b.buf ++ rd.chunks.flatten = pre ++ delim :: post → delim ∉ pre →
      2 * rd.size + (if b.size ≤ b.buf.length then 1 else 0) + 1 ≤ fuel →
      ∃ b1 rd1, ReadStringLoop fuel b rd delim full = (.returns (full ++ pre ++ [delim], none), b1, rd1) ∧
        b1.err = none ∧ b1.size = b.size ∧ (∀ c ∈ rd1.chunks, c ≠ []) ∧
        b1.buf ++ rd1.chunks.flatten = post ∧ rd1.closed = rd.closed := by
  intro fuel
  induction fuel with
  | zero => intro b rd full pre post _ _ _ _ _ hf; omega
  | succ fuel ih =>
    intro b rd full pre post herr hsize hne hflat hpre hf
    unfold ReadStringLoop
    by_cases hmem : delim ∈ b.buf
    · obtain ⟨rest, hbuf⟩ := split_of_mem _ _ _ _ _ hflat hpre hmem
      rw [hbuf, IndexByte_append pre rest delim hpre]
      refine ⟨⟨b.size, rest, b.err⟩, rd, ?_, herr, rfl, hne, ?_, rfl⟩
      · simp [List.take_append_eq_append_take, List.append_assoc]
      · rw [hbuf] at hflat
        simp only [List.append_assoc, List.cons_append] at hflat
        have := List.append_cancel_left hflat
        simp only [List.cons.injEq, true_and] at this
        exact this
    · obtain ⟨more, hmore, hflat2⟩ := split_of_not_mem _ _ _ _ _ hflat hmem
      have hmore_pre : delim ∉ more := fun e => hpre (by rw [hmore]; simp [e])
      rw [(IndexByte_eq_none_iff b.buf delim).2 hmem]
      simp only [herr]
      by_cases hfull : b.size ≤ b.buf.length
      · rw [if_pos hfull]
        rw [if_pos hfull] at hf
        have hb0 : ¬ (b.size ≤ ([] : GoString).length) := by simp; omega
        obtain ⟨b1, rd1, h1, h2, h3, h4, h5, h6⟩ :=
          ih ⟨b.size, [], none⟩ rd (full ++ b.buf) more post rfl hsize hne
            (by simpa using hflat2) hmore_pre (by simp only [if_neg hb0]; omega)
        refine ⟨b1, rd1, ?_, h2, h3, h4, h5, h6⟩
        rw [h1, hmore]; simp [List.append_assoc]
      · rw [if_neg hfull]
        rw [if_neg hfull] at hf
        cases hch : rd.chunks with
        | nil => rw [hch] at hflat2; simp at hflat2
        | cons c cs =>
          have hc : c ≠ [] := hne c (by simp [hch])
          have hcpos : 0 < c.length := List.length_pos.2 hc
          have hsz : rd.size = c.length + (cs.map List.length).sum := by
            simp [ReadPipe.size, hch]
          by_cases hle : c.length ≤ b.size - b.buf.length
          · have hread : rd.Read (b.size - b.buf.length) =
                (.returns (c, none), { rd with chunks := cs, reads := rd.reads + 1 }) := by
              simp [ReadPipe.Read, hch, hc, hle]
            rw [hread]
            simp only
            apply ih
            · rfl
            · exact hsize
            · intro x hx; exact hne x (by simp [hch, hx])
            · simp only [List.append_assoc]
              rw [← hflat, hch]; simp
            · exact hpre
            · simp only [ReadPipe.size]
              split <;> omega
          · have hread : rd.Read (b.size - b.buf.length) =
                (.returns (c.take (b.size - b.buf.length), none),
                  { rd with chunks := c.drop (b.size - b.buf.length) :: cs, reads := rd.reads + 1 }) := by
              simp [ReadPipe.Read, hch, hc, hle]
            rw [hread]
            simp only
            apply ih
            · rfl
            · exact hsize
            · intro x hx
              simp at hx
              rcases hx with hx | hx
              · rw [hx]; intro e
                have := congrArg List.length e
                simp at this; omega
              · exact hne x (by simp [hch, hx])
            · simp only [List.append_assoc]
              rw [← hflat, hch, List.flatten_cons, List.flatten_cons,
                ← List.append_assoc (List.take _ c), List.take_append_drop]
            · exact hpre
            · simp only [ReadPipe.size, List.map_cons, List.sum_cons, List.length_drop]
              split <;> omega
/-- A string has its own head as a prefix. -/
theorem HasPrefix_append (p t : GoString) : HasPrefix (p ++ t) p = true := by
  simp [HasPrefix]

/-- `ReadString` with no error pending returns the first line of what is buffered followed by
what the pipe delivers, and keeps what follows the line. -/
theorem ReadString_rest (b : Reader) (rd : ReadPipe) (delim : Byte) (pre post : GoString)
    (herr : b.err = none) (hsize : 0 < b.size) (hne : ∀ c ∈ rd.chunks, c ≠ [])
    (hflat : b.buf ++ rd.chunks.flatten = pre ++ delim :: post) (hpre : delim ∉ pre) :
    ∃ b1 rd1, b.ReadString rd delim = (.returns (pre ++ [delim], none), b1, rd1) ∧
      b1.err = none ∧ b1.size = b.size ∧ (∀ c ∈ rd1.chunks, c ≠ []) ∧
      b1.buf ++ rd1.chunks.flatten = post ∧ rd1.closed = rd.closed := by
  unfold Reader.ReadString
  have h := ReadStringLoop_rest delim (2 * rd.size + 3) b rd [] pre post herr hsize hne hflat hpre
    (by split <;> omega)
  simpa using h

/-- The bytes of `n` newline-terminated lines are at least `n`. -/
theorem length_le_flatten_lines (ds : List GoString) :
    ds.length ≤ ((ds.map (· ++ [10])).flatten).length := by
  induction ds with
  | nil => simp
  | cons d ds ih => simp at ih ⊢; omega

/-- The size of a pipe is the length of its bytes. -/
theorem size_eq_length_flatten (rd : ReadPipe) : rd.size = rd.chunks.flatten.length := by
  unfold ReadPipe.size
  generalize rd.chunks = cs
  induction cs with
  | nil => rfl
  | cons c cs ih =>
    rw [List.map_cons, List.sum_cons, List.flatten_cons, List.length_append, ih]

/-- The loop of `readAns` reads past the lines `ds` that do not start with `ANS_` and stops at
the first line that does, handing it over whole. -/
theorem readAnsLoop_skips (body rest : GoString) (hb : (10 : Byte) ∉ body) :
    ∀ (ds : List GoString) (fuel : Nat) (b : Reader) (rd : ReadPipe),
      b.err = none → 0 < b.size → (∀ c ∈ rd.chunks, c ≠ []) →
      (∀ d ∈ ds, (10 : Byte) ∉ d ∧ HasPrefix (d ++ [10]) (bytes "ANS_") = false) →
      b.buf ++ rd.chunks.flatten
        = (ds.map (· ++ [10])).flatten ++ (bytes "ANS_" ++ body ++ 10 :: rest) →
      ds.length + 1 ≤ fuel →
      ∃ b1 rd1, readAnsLoop fuel b rd = (.returns (bytes "ANS_" ++ body ++ [10], none), b1, rd1) := by
  intro ds
  induction ds with
  | nil =>
    intro fuel b rd herr hsize hne _ hflat hf
    obtain ⟨fuel, rfl⟩ : ∃ k, fuel = k + 1 := ⟨fuel - 1, by simp at hf; omega⟩
    have hpre : (10 : Byte) ∉ bytes "ANS_" ++ body := by
      have h1 : (10 : Byte) ∉ bytes "ANS_" := by decide
      simp [h1, hb]
    obtain ⟨b1, rd1, h1, _⟩ := ReadString_rest b rd 10 _ rest herr hsize hne (by simpa using hflat) hpre
    unfold readAnsLoop
    rw [h1]
    have hp : HasPrefix (bytes "ANS_" ++ body ++ [10]) (bytes "ANS_") = true := by
      rw [List.append_assoc]
      exact HasPrefix_append _ _
    simp only [hp, if_true]
    exact ⟨b1, rd1, rfl⟩
  | cons d ds ih =>
    intro fuel b rd herr hsize hne hds hflat hf
    obtain ⟨fuel, rfl⟩ : ∃ k, fuel = k + 1 := ⟨fuel - 1, by simp at hf; omega⟩
    have hd := hds d (by simp)
    obtain ⟨b1, rd1, h1, h2, h3, h4, h5, _⟩ := ReadString_rest b rd 10 d
      ((ds.map (· ++ [10])).flatten ++ (bytes "ANS_" ++ body ++ 10 :: rest)) herr hsize hne
      (by rw [hflat]; simp [List.append_assoc]) hd.1
    unfold readAnsLoop
    rw [h1]
    simp only [hd.2]
    exact ih fuel b1 rd1 h2 (by rw [h3]; exact hsize) h4
      (fun x hx => hds x (by simp [hx])) h5 (by simp at hf; omega)

/-- Method `readAns` on a pipe whose bytes are the lines `ds`, none starting with `ANS_`,
followed by the line `ANS_<s>=<v>`: the result is `(s, v)` and no error. -/
theorem readAns_skips_diagnostics (m : Mplayer) (rd : ReadPipe) (ds : List GoString)
    (s v rest : GoString) (hout : m.stdout = some rd) (hne : ∀ c ∈ rd.chunks, c ≠ [])
    (hds : ∀ d ∈ ds, (10 : Byte) ∉ d ∧ HasPrefix (d ++ [10]) (bytes "ANS_") = false)
    (hflat : rd.chunks.flatten
      = (ds.map (· ++ [10])).flatten ++ (bytes "ANS_" ++ s ++ bytes "=" ++ v ++ bytes "\n" ++ rest))
    (hs : (61 : Byte) ∉ s) (hsn : (10 : Byte) ∉ s) (hvn : (10 : Byte) ∉ v) :
    ∃ rd1, m.readAns = (.returns (s, v, none), { m with stdout := some rd1 }) := by
  have he : bytes "=" = [61] := by decide
  have hn : bytes "\n" = [10] := by decide
  have hbody : (10 : Byte) ∉ s ++ 61 :: v := by simp [hsn, hvn]
  have hflat2 : NewReader.buf ++ rd.chunks.flatten
      = (ds.map (· ++ [10])).flatten ++ (bytes "ANS_" ++ (s ++ 61 :: v) ++ 10 :: rest) := by
    rw [hflat, he, hn]; simp [NewReader, List.append_assoc]
  have hfuel : ds.length + 1 ≤ rd.size + 1 := by
    have h1 := length_le_flatten_lines ds
    have h2 := size_eq_length_flatten rd
    rw [hflat] at h2
    simp at h1 h2 ⊢
    omega
  obtain ⟨b1, rd1, hloop⟩ := readAnsLoop_skips (s ++ 61 :: v) rest hbody ds (rd.size + 1)
    NewReader rd rfl (by decide) hne hds hflat2 hfuel
  refine ⟨rd1, ?_⟩
  unfold Mplayer.readAns
  rw [hout]
  simp only
  rw [hloop]
  simp only
  have hline : bytes "ANS_" ++ (s ++ 61 :: v) ++ [10] = bytes "ANS_" ++ s ++ [61] ++ v ++ [10] := by
    simp [List.append_assoc]
  rw [hline, decodeAns_answer s v hs]

/-- Claim C2: let the name `s` contain no `=` (byte 61) and no newline (byte 10) and the value
`v` no newline. On every output pipe whose bytes start with the line `ANS_` ++ s ++ `=` ++ v ++
newline, however those bytes are cut into reads (none of them empty, which would be end of
file), `readAns` returns exactly `(s, v)` and no error: prefix and newline are stripped and
the rest is split at the first `=` only. -/
theorem readAns_decodes (m : Mplayer) (rd : ReadPipe) (s v rest : GoString)
    (hout : m.stdout = some rd) (hne : ∀ c ∈ rd.chunks, c ≠ [])
    (hflat : rd.chunks.flatten = bytes "ANS_" ++ s ++ bytes "=" ++ v ++ bytes "\n" ++ rest)
    (hs : (61 : Byte) ∉ s) (hsn : (10 : Byte) ∉ s) (hvn : (10 : Byte) ∉ v) :
    (m.readAns).1 = .returns (s, v, none) := by
  have he : bytes "=" = [61] := by decide
  have hn : bytes "\n" = [10] := by decide
  have hbody : (10 : Byte) ∉ s ++ 61 :: v := by simp [hsn, hvn]
  have hflat2 : NewReader.buf ++ rd.chunks.flatten
      = (([] : List GoString).map (· ++ [10])).flatten
        ++ (bytes "ANS_" ++ (s ++ 61 :: v) ++ 10 :: rest) := by
    rw [hflat, he, hn]; simp [NewReader, List.append_assoc]
  obtain ⟨b1, rd1, hloop⟩ := readAnsLoop_skips (s ++ 61 :: v) rest hbody [] (rd.size + 1)
    NewReader rd rfl (by decide) hne (by simp) hflat2 (by simp)
  unfold Mplayer.readAns
  rw [hout]
  simp only
  rw [hloop]
  simp only
  have hline : bytes "ANS_" ++ (s ++ 61 :: v) ++ [10] = bytes "ANS_" ++ s ++ [61] ++ v ++ [10] := by
    simp [List.append_assoc]
  rw [hline]
  exact decodeAns_answer s v hs

/-- On a live session whose command write succeeds, `getProperty(name)` reads past the lines
`ds` that do not start with `ANS_` and returns the value of the answer line for `name` that
follows them, however the pipe cuts these bytes into reads. -/
theorem getProperty_skips_diagnostics (m : Mplayer) (w : WritePipe) (rd : ReadPipe)
    (ds : List GoString) (name v rest : GoString) (hr : m.running = true)
    (hw : m.stdin = some w) (hwok : w.next = none) (hout : m.stdout = some rd)
    (hne : ∀ c ∈ rd.chunks, c ≠ [])
    (hds : ∀ d ∈ ds, (10 : Byte) ∉ d ∧ HasPrefix (d ++ [10]) (bytes "ANS_") = false)
    (hflat : rd.chunks.flatten
      = (ds.map (· ++ [10])).flatten
        ++ (bytes "ANS_" ++ name ++ bytes "=" ++ v ++ bytes "\n" ++ rest))
    (hs : (61 : Byte) ∉ name) (hsn : (10 : Byte) ∉ name) (hvn : (10 : Byte) ∉ v) :
    (m.getProperty name).1 = .returns (v, none) := by
  have hloop : ∀ m1 : Mplayer, m1.stdout = some rd →
      (getPropertyLoop m1.budget m1 name).1 = .returns (v, none) := by
    intro m1 hout1
    obtain ⟨rd1, hread⟩ := readAns_skips_diagnostics m1 rd ds name v rest hout1 hne hds hflat
      hs hsn hvn
    simp only [Mplayer.budget, hout1]
    unfold getPropertyLoop
    rw [hread]
    simp
  unfold Mplayer.getProperty
  rw [sendCmd_running m w _ _ hr hw, hwok]
  simp only [hr, Bool.not_true, Bool.false_eq_true, if_false]
  exact hloop _ hout

/-- Witness of C2: `ANS_path=a=b.mkv` gives `path` and `a=b.mkv`, and `ANS_time_pos=12.5`,
delivered in two reads and followed by another line, gives `time_pos` and `12.5`. -/
theorem readAns_decodes_witness :
    ((liveSession (pipeOf ["ANS_path=a=b.mkv\n"] none)).readAns).1
      = .returns (bytes "path", bytes "a=b.mkv", none) ∧
    ((liveSession (pipeOf ["ANS_time_", "pos=12.5\nPlaying\n"] none)).readAns).1
      = .returns (bytes "time_pos", bytes "12.5", none) :=
  ⟨readAns_decodes (liveSession (pipeOf ["ANS_path=a=b.mkv\n"] none))
      (pipeOf ["ANS_path=a=b.mkv\n"] none) (bytes "path") (bytes "a=b.mkv") [] rfl
      (by decide) (by decide) (by decide) (by decide) (by decide),
    readAns_decodes (liveSession (pipeOf ["ANS_time_", "pos=12.5\nPlaying\n"] none))
      (pipeOf ["ANS_time_", "pos=12.5\nPlaying\n"] none) (bytes "time_pos") (bytes "12.5")
      (bytes "Playing\n") rfl (by decide) (by decide) (by decide) (by decide) (by decide)⟩

/-- A line `ANS_<body>` whose body has no `=`: the slice is within bounds, the split has
one element only, and `splitted[1]` is out of range. -/
theorem decodeAns_without_eq (body : GoString) (h : (61 : Byte) ∉ body) :
    decodeAns (bytes "ANS_" ++ body ++ [10]) = .panics "index out of range" := by
  unfold decodeAns
  have h4 : ((4 : Int)) = ((bytes "ANS_").length : Int) := by decide
  rw [h4, slice_inner]
  have hn := (IndexByte_eq_none_iff body 61).2 h
  cases body with
  | nil => simp [SplitN, genSplitLoop]
  | cons b rest =>
    have hm : min 2 ((b :: rest).length + 1) - 1 = 1 := by simp
    simp [SplitN, hm, genSplitLoop, hn]

/-- Claim C10 fails on the code: the output line `ANS_foo`, newline-terminated and starting
with `ANS_`, makes `readAns` panic with an index out of range, because the split of `foo`
on `=` has a name element and no value element; so does the line `ANS_` alone. With an `=`
added (`ANS_foo=`) the same call returns the pair `foo` and the empty value. -/
theorem readAns_panics_without_eq :
    ((liveSession (pipeOf ["ANS_foo\n"] none)).readAns).1 = .panics "index out of range" ∧
    ((liveSession (pipeOf ["ANS_\n"] none)).readAns).1 = .panics "index out of range" ∧
    ((liveSession (pipeOf ["ANS_foo=\n"] none)).readAns).1 = .returns (bytes "foo", [], none) := by
  decide

/-- Claim C1 fails on the code: the pipe holds the lines `ANS_foo=1` and `ANS_path=x`, so it
has a line for `path`. When one read delivers both, `getProperty("path")` does not return
`x`: the first `readAns` takes both lines into its buffered reader, returns the answer for
`foo` and drops the reader with the `path` line in it; the second `readAns` finds the pipe
empty and gets end of file if the player has closed it, or blocks for ever if the player is
still running. When the two lines come in two reads, or the line before the answer is a
diagnostic line, the same call returns `x`. -/
theorem getProperty_drops_buffered_answer :
    bytes "ANS_path=x\n" ∈ completeLines (pipeOf ["ANS_foo=1\nANS_path=x\n"] none).chunks.flatten ∧
    ((liveSession (pipeOf ["ANS_foo=1\nANS_path=x\n"] (some Error.EOF))).getProperty
      (bytes "path")).1 = .returns ([], some Error.EOF) ∧
    ((liveSession (pipeOf ["ANS_foo=1\nANS_path=x\n"] none)).getProperty (bytes "path")).1
      = .hangs ∧
    ((liveSession (pipeOf ["ANS_foo=1\n", "ANS_path=x\n"] none)).getProperty (bytes "path")).1
      = .returns (bytes "x", none) ∧
    ((liveSession (pipeOf ["Starting playback...\nANS_path=x\n"] none)).getProperty
      (bytes "path")).1 = .returns (bytes "x", none) := by
  decide

/-- Claim C8 fails on the code, in two ways. The pipe delivers `ANS_a=1`, newline, `foo` in
one read and `ANS_path=x`, newline in the next, and is then at end of file: its complete
lines are `ANS_a=1` and `fooANS_path=x`, none of them an answer for `path`, yet
`getProperty("path")` returns the value `x` and no error, because the second `readAns`
starts a new reader in the middle of the second line. And on a pipe that delivers the line
`ANS_foo` and is then at end of file, `getProperty("path")` panics instead of returning the
end-of-file error. -/
theorem getProperty_value_without_answer_line :
    (∀ l ∈ completeLines (pipeOf ["ANS_a=1\nfoo", "ANS_path=x\n"] (some Error.EOF)).chunks.flatten,
      HasPrefix l (bytes "ANS_path=") = false) ∧
    ((liveSession (pipeOf ["ANS_a=1\nfoo", "ANS_path=x\n"] (some Error.EOF))).getProperty
      (bytes "path")).1 = .returns (bytes "x", none) ∧
    (∀ l ∈ completeLines (pipeOf ["ANS_foo\n"] (some Error.EOF)).chunks.flatten,
      HasPrefix l (bytes "ANS_path=") = false) ∧
    ((liveSession (pipeOf ["ANS_foo\n"] (some Error.EOF))).getProperty (bytes "path")).1
      = .panics "index out of range" := by
  decide



/-- A position found by `IndexByte` lies inside the string. -/
theorem IndexByte_lt (s : GoString) (c : Byte) (i : Nat) (h : IndexByte s c = some i) :
    i < s.length := by
  induction s generalizing i with
  | nil => simp [IndexByte] at h
  | cons b rest ih =>
    unfold IndexByte at h
    by_cases hb : b = c
    · simp [hb] at h; subst h; simp
    · simp only [hb, if_false] at h
      cases hr : IndexByte rest c with
      | none => simp [hr] at h
      | some j =>
        simp [hr] at h
        subst h
        have := ih j hr
        simp; omega

/-- The bytes that a `Read` delivers are taken out of the pipe, and a `Read` without error
into a non-empty slice delivers at least one byte. -/
theorem Read_bytes (rd : ReadPipe) (n : Nat) (p : GoString) (e : Option Error) (rd1 : ReadPipe)
    (h : rd.Read n = (.returns (p, e), rd1)) :
    p.length + rd1.size = rd.size ∧ (e = none → 0 < n → 0 < p.length) := by
  unfold ReadPipe.Read at h
  cases hch : rd.chunks with
  | nil =>
    rw [hch] at h
    cases hcl : rd.closed with
    | none => simp [hcl] at h
    | some e0 =>
      simp [hcl] at h
      obtain ⟨⟨hp, he⟩, hrd⟩ := h
      subst hp; subst hrd
      simp [ReadPipe.size, hch, ← he]
  | cons c cs =>
    rw [hch] at h
    simp only at h
    by_cases hc : c = []
    · simp [hc] at h
      obtain ⟨⟨hp, he⟩, hrd⟩ := h
      subst hp; subst hrd
      simp [ReadPipe.size, hch, hc, ← he]
    · have hcpos : 0 < c.length := List.length_pos.2 hc
      by_cases hle : c.length ≤ n
      · simp [hc, hle] at h
        obtain ⟨⟨hp, he⟩, hrd⟩ := h
        subst hp; subst hrd
        simp [ReadPipe.size, hch, hcpos]
      · simp [hc, hle] at h
        obtain ⟨⟨hp, he⟩, hrd⟩ := h
        subst hp; subst hrd
        simp [ReadPipe.size, hch]
        constructor
        · omega
        · intro _ hn; omega

/-- A `Read` has no loop. -/
theorem Read_not_exhausted (rd : ReadPipe) (n : Nat) : (rd.Read n).1 ≠ .exhausted := by
  unfold ReadPipe.Read
  cases rd.chunks with
  | nil => cases rd.closed <;> simp
  | cons c cs =>
    simp only
    split
    · simp
    · split <;> simp

/-- `ReadStringLoop` does not run out of loop budget when given one round for the return,
and two rounds for every byte still in the pipe (a flush and a fill) plus two when no error
is pending. -/
theorem ReadStringLoop_not_exhausted (delim : Byte) :
    ∀ (fuel : Nat) (b : Reader) (rd : ReadPipe) (full : GoString),
      0 < b.size →
      (if b.err = none then 2 * rd.size + (if b.size ≤ b.buf.length then 1 else 0) + 2 else 1)
        ≤ fuel →
      (ReadStringLoop fuel b rd delim full).1 ≠ .exhausted := by
  intro fuel
  induction fuel with
  | zero =>
    intro b rd full _ hf
    split at hf <;> omega
  | succ fuel ih =>
    intro b rd full hsize hf
    unfold ReadStringLoop
    cases hi : IndexByte b.buf delim with
    | some i => simp
    | none =>
      cases herr : b.err with
      | some e => simp
      | none =>
        simp only [herr, if_true] at hf
        simp only
        by_cases hfull : b.size ≤ b.buf.length
        · rw [if_pos hfull]
          rw [if_pos hfull] at hf
          apply ih
          · exact hsize
          · have hb0 : ¬ (b.size ≤ ([] : GoString).length) := by simp; omega
            simp only [if_true, if_neg hb0]
            omega
        · rw [if_neg hfull]
          rw [if_neg hfull] at hf
          rcases hread : rd.Read (b.size - b.buf.length) with ⟨o, rd1⟩
          cases o with
          | exhausted => exact absurd (by rw [hread]) (Read_not_exhausted rd (b.size - b.buf.length))
          | hangs => simp
          | panics msg => simp
          | returns pe =>
            obtain ⟨p, e⟩ := pe
            simp only
            have hb := Read_bytes rd _ p e rd1 hread
            apply ih
            · exact hsize
            · cases e with
              | some e0 => simp; omega
              | none =>
                have hp := hb.2 rfl (by omega)
                simp only [if_true]
                split <;> omega

/-- A line returned by `ReadStringLoop` without error has been taken out of the buffer and the
pipe, and the capacity of the reader stays. -/
theorem ReadStringLoop_consumes (delim : Byte) :
    ∀ (fuel : Nat) (b : Reader) (rd : ReadPipe) (full line : GoString) (b1 : Reader)
      (rd1 : ReadPipe),
      ReadStringLoop fuel b rd delim full = (.returns (line, none), b1, rd1) →
      b1.buf.length + rd1.size < b.buf.length + rd.size ∧ b1.size = b.size := by
  intro fuel
  induction fuel with
  | zero =>
    intro b rd full line b1 rd1 h
    simp [ReadStringLoop] at h
  | succ fuel ih =>
    intro b rd full line b1 rd1 h
    unfold ReadStringLoop at h
    cases hi : IndexByte b.buf delim with
    | some i =>
      rw [hi] at h
      simp only [Prod.mk.injEq] at h
      obtain ⟨_, hb1, hrd1⟩ := h
      have hlt := IndexByte_lt _ _ _ hi
      subst hb1; subst hrd1
      simp; omega
    | none =>
      rw [hi] at h
      cases herr : b.err with
      | some e => rw [herr] at h; simp at h
      | none =>
        rw [herr] at h
        simp only at h
        by_cases hfull : b.size ≤ b.buf.length
        · rw [if_pos hfull] at h
          have := ih _ _ _ _ _ _ h
          simp at this
          constructor
          · omega
          · exact this.2
        · rw [if_neg hfull] at h
          rcases hread : rd.Read (b.size - b.buf.length) with ⟨o, rd2⟩
          rw [hread] at h
          cases o with
          | exhausted => simp at h
          | hangs => simp at h
          | panics msg => simp at h
          | returns pe =>
            obtain ⟨p, e⟩ := pe
            simp only at h
            have hb := (Read_bytes rd _ p e rd2 hread).1
            have := ih _ _ _ _ _ _ h
            simp at this
            constructor
            · omega
            · exact this.2


/-- `ReadString` never runs out of loop budget. -/
theorem ReadString_not_exhausted (b : Reader) (rd : ReadPipe) (delim : Byte) (hsize : 0 < b.size) :
    (b.ReadString rd delim).1 ≠ .exhausted := by
  unfold Reader.ReadString
  apply ReadStringLoop_not_exhausted delim _ b rd [] hsize
  split
  · split <;> omega
  · omega

/-- The loop of `readAns` never runs out of loop budget, and the line it stops at has been
taken out of the buffer and the pipe. -/
theorem readAnsLoop_total :
    ∀ (fuel : Nat) (b : Reader) (rd : ReadPipe), 0 < b.size →
      b.buf.length + rd.size + 1 ≤ fuel →
      (readAnsLoop fuel b rd).1 ≠ .exhausted ∧
      ∀ line b1 rd1, readAnsLoop fuel b rd = (.returns (line, none), b1, rd1) →
        b1.buf.length + rd1.size < b.buf.length + rd.size := by
  intro fuel
  induction fuel with
  | zero => intro b rd _ hf; omega
  | succ fuel ih =>
    intro b rd hsize hf
    unfold readAnsLoop
    rcases hval : b.ReadString rd 10 with ⟨o, b2, rd2⟩
    cases o with
    | exhausted => exact absurd (by rw [hval]) (ReadString_not_exhausted b rd 10 hsize)
    | hangs => simp
    | panics msg => simp
    | returns le =>
      obtain ⟨line, e⟩ := le
      cases e with
      | some e0 => simp
      | none =>
        simp only
        have hc := ReadStringLoop_consumes 10 _ b rd [] line b2 rd2 hval
        by_cases hp : HasPrefix line (bytes "ANS_") = true
        · simp only [hp, if_true]
          refine ⟨by simp, ?_⟩
          intro l b1 rd1 h
          simp only [Prod.mk.injEq] at h
          obtain ⟨_, hb1, hrd1⟩ := h
          subst hb1; subst hrd1
          exact hc.1
        · simp only [hp]
          have := ih b2 rd2 (by rw [hc.2]; exact hsize) (by omega)
          refine ⟨this.1, ?_⟩
          intro l b1 rd1 h
          have := this.2 l b1 rd1 h
          omega

/-- The decoding step returns or panics. -/
theorem decodeAns_not_exhausted (line : GoString) : decodeAns line ≠ .exhausted := by
  unfold decodeAns
  split
  · simp
  · simp only
    split <;> simp

/-- Method `readAns` never runs out of loop budget, and an answer it returns has been taken
out of the output pipe; the rest of the session is as before. -/
theorem readAns_total (m : Mplayer) :
    (m.readAns).1 ≠ .exhausted ∧
    ∀ a v m1, m.readAns = (.returns (a, v, none), m1) →
      m1.budget < m.budget ∧ m1.cmd = m.cmd ∧ m1.stdin = m.stdin := by
  unfold Mplayer.readAns
  cases hout : m.stdout with
  | none => simp
  | some rd =>
    simp only
    have ht := readAnsLoop_total (rd.size + 1) NewReader rd (by decide) (by simp [NewReader])
    rcases hval : readAnsLoop (rd.size + 1) NewReader rd with ⟨o, b1, rd1⟩
    rw [hval] at ht
    cases o with
    | exhausted => exact absurd rfl ht.1
    | hangs => simp
    | panics msg => simp
    | returns le =>
      obtain ⟨line, e⟩ := le
      cases e with
      | some e0 => simp
      | none =>
        simp only
        refine ⟨decodeAns_not_exhausted line, ?_⟩
        intro a v m1 h
        simp only [Prod.mk.injEq] at h
        obtain ⟨_, hm1⟩ := h
        subst hm1
        have := ht.2 line b1 rd1 rfl
        simp [NewReader] at this
        simp [Mplayer.budget, hout]
        omega

/-- The loop of `getProperty` never runs out of loop budget. -/
theorem getPropertyLoop_not_exhausted (name : GoString) :
    ∀ (fuel : Nat) (m : Mplayer), m.budget ≤ fuel →
      (getPropertyLoop fuel m name).1 ≠ .exhausted := by
  intro fuel
  induction fuel with
  | zero =>
    intro m hf
    unfold Mplayer.budget at hf
    split at hf <;> omega
  | succ fuel ih =>
    intro m hf
    unfold getPropertyLoop
    have ht := readAns_total m
    rcases hval : m.readAns with ⟨o, m1⟩
    rw [hval] at ht
    cases o with
    | exhausted => exact absurd rfl ht.1
    | hangs => simp
    | panics msg => simp
    | returns r =>
      obtain ⟨a, v, e⟩ := r
      cases e with
      | some e0 => simp
      | none =>
        simp only
        split
        · simp
        · exact ih m1 (by have := (ht.2 a v m1 rfl).1; omega)

/-- Method `sendCmd` does no reading and has no loop. -/
theorem sendCmd_not_exhausted (m : Mplayer) (name : GoString) (args : List GoString) :
    (m.sendCmd name args).1 ≠ .exhausted := by
  unfold Mplayer.sendCmd
  split
  · simp
  · split
    · simp
    · simp only
      split <;> simp

/-- Method `getProperty` never runs out of loop budget: on every session and every output
pipe it returns, panics or blocks in a read. -/
theorem getProperty_not_exhausted (m : Mplayer) (name : GoString) :
    (m.getProperty name).1 ≠ .exhausted := by
  unfold Mplayer.getProperty
  split
  · simp
  · have hs := sendCmd_not_exhausted m (bytes "pausing_keep get_property " ++ name) []
    rcases hval : m.sendCmd (bytes "pausing_keep get_property " ++ name) [] with ⟨o, m1⟩
    rw [hval] at hs
    cases o with
    | exhausted => exact absurd rfl hs
    | hangs => simp
    | panics msg => simp
    | returns r =>
      cases r with
      | some e => simp
      | none => exact getPropertyLoop_not_exhausted name _ m1 (le_refl _)


/-! ## Running sessions have their pipes -/

/-- A session that was never started is not running. -/
theorem attached_freshSession : freshSession.attached := by
  intro h
  exact absurd h (by decide)

/-- Method `kill` keeps the pipes and the liveness. -/
theorem kill_frame (m : Mplayer) :
    (m.kill).2.running = m.running ∧ (m.kill).2.stdin = m.stdin ∧ (m.kill).2.stdout = m.stdout := by
  unfold Mplayer.kill
  by_cases hr : m.running = true
  · rw [if_pos hr]
    cases hc : m.cmd with
    | none => simp
    | some c =>
      cases hp : c.Process with
      | none => simp [hp]
      | some p => simp [Mplayer.running, hc, hp, Process.Kill]
  · rw [if_neg hr]
    simp

/-- On a running session `kill` sends one termination request to the process and returns
what the system answers. -/
theorem kill_running (m : Mplayer) (c : Cmd) (p : Process) (hc : m.cmd = some c)
    (hp : c.Process = some p) (hpid : p.Pid ≠ 0) :
    m.kill = (p.killResult,
      { m with cmd := some { c with Process := some { p with kills := p.kills + 1 } } }) := by
  have hr : m.running = true := by simp [Mplayer.running, hc, hp, hpid]
  simp [Mplayer.kill, hr, hc, hp, Process.Kill]

/-- Method `start` leaves a session whose pipes are attached whenever it is running. -/
theorem start_attached (m : Mplayer) (sys : Pipes) (spawn : Except Error Int) (h : m.attached) :
    (m.start sys spawn).2.attached := by
  have hk : (if m.running then m.kill else (none, m)).2.attached := by
    by_cases hr : m.running = true
    · rw [if_pos hr]
      have hf := kill_frame m
      intro hr2
      rw [hf.2.1, hf.2.2]
      exact h hr
    · rw [if_neg hr]; exact h
  unfold Mplayer.start
  generalize (if m.running then m.kill else (none, m)) = k at hk
  obtain ⟨ke, k2⟩ := k
  cases ke with
  | some e => exact hk
  | none =>
    simp only
    unfold Mplayer.prepareCmd
    by_cases hfile : k2.file = []
    · rw [if_pos hfile]; exact hk
    · rw [if_neg hfile]
      cases hin : sys.StdinPipe with
      | error e => intro hr; simp [Mplayer.running, Command] at hr
      | ok w =>
        cases hout : sys.StdoutPipe with
        | error e => intro hr; simp [Mplayer.running, Command] at hr
        | ok r =>
          cases herr : sys.StderrPipe with
          | error e => intro hr; simp [Mplayer.running, Command] at hr
          | ok r2 =>
            cases spawn with
            | error e => intro hr; simp [Mplayer.running, Command, Cmd.Start] at hr
            | ok pid => intro _; exact ⟨⟨w, rfl⟩, ⟨r, rfl⟩⟩

/-- After the reaper has run the session is not running. -/
theorem reap_not_running (m : Mplayer) : m.reap.running = false := by
  unfold Mplayer.reap
  cases hc : m.cmd with
  | none => simp [Mplayer.running, hc]
  | some c =>
    cases hp : c.Process with
    | none => simp [Mplayer.running, hc, hp]
    | some p => simp [Mplayer.running, hp]

/-- Method `sendCmd` keeps the command object, keeps a command pipe attached and does not
touch the output pipe. -/
theorem sendCmd_frame (m : Mplayer) (name : GoString) (args : List GoString) :
    (m.sendCmd name args).2.cmd = m.cmd ∧
    (m.stdin.isSome → (m.sendCmd name args).2.stdin.isSome) ∧
    (m.sendCmd name args).2.stdout = m.stdout := by
  unfold Mplayer.sendCmd
  split
  · simp
  · cases hw : m.stdin with
    | none => simp
    | some w =>
      simp only
      split <;> simp

/-- Method `readAns` keeps the command object and the command pipe, and keeps an output
pipe attached. -/
theorem readAns_frame (m : Mplayer) :
    (m.readAns).2.cmd = m.cmd ∧ (m.readAns).2.stdin = m.stdin ∧
    (m.stdout.isSome → (m.readAns).2.stdout.isSome) := by
  unfold Mplayer.readAns
  cases hout : m.stdout with
  | none => simp
  | some rd =>
    simp only
    rcases readAnsLoop (rd.size + 1) NewReader rd with ⟨o, b1, rd1⟩
    cases o with
    | exhausted => simp
    | hangs => simp
    | panics msg => simp
    | returns le =>
      obtain ⟨line, e⟩ := le
      cases e <;> simp

/-- The loop of `getProperty` keeps the command object and the command pipe, and keeps an
output pipe attached. -/
theorem getPropertyLoop_frame (name : GoString) :
    ∀ (fuel : Nat) (m : Mplayer),
      (getPropertyLoop fuel m name).2.cmd = m.cmd ∧
      (getPropertyLoop fuel m name).2.stdin = m.stdin ∧
      (m.stdout.isSome → (getPropertyLoop fuel m name).2.stdout.isSome) := by
  intro fuel
  induction fuel with
  | zero => intro m; simp [getPropertyLoop]
  | succ fuel ih =>
    intro m
    unfold getPropertyLoop
    have hf := readAns_frame m
    rcases hval : m.readAns with ⟨o, m1⟩
    rw [hval] at hf
    simp only at hf
    cases o with
    | exhausted => exact hf
    | hangs => exact hf
    | panics msg => exact hf
    | returns r =>
      obtain ⟨a, v, e⟩ := r
      cases e with
      | some e0 => exact hf
      | none =>
        simp only
        split
        · exact hf
        · have h2 := ih m1
          exact ⟨h2.1.trans hf.1, h2.2.1.trans hf.2.1, fun hs => h2.2.2 (hf.2.2 hs)⟩

/-- Method `getProperty` leaves a session whose pipes are attached whenever it is running. -/
theorem getProperty_attached (m : Mplayer) (name : GoString) (h : m.attached) :
    (m.getProperty name).2.attached := by
  unfold Mplayer.getProperty
  split
  · exact h
  · have hs := sendCmd_frame m (bytes "pausing_keep get_property " ++ name) []
    rcases hval : m.sendCmd (bytes "pausing_keep get_property " ++ name) [] with ⟨o, m1⟩
    rw [hval] at hs
    simp only at hs
    have h1 : m1.attached := by
      intro hr
      have hr0 : m.running = true := by
        simpa [Mplayer.running, hs.1] using hr
      obtain ⟨⟨w, hw⟩, ⟨r, hr2⟩⟩ := h hr0
      refine ⟨Option.isSome_iff_exists.1 (hs.2.1 (by simp [hw])), ⟨r, by rw [hs.2.2, hr2]⟩⟩
    cases o with
    | exhausted => exact h1
    | hangs => exact h1
    | panics msg => exact h1
    | returns r =>
      cases r with
      | some e => exact h1
      | none =>
        simp only
        have hl := getPropertyLoop_frame name m1.budget m1
        intro hr
        have hr1 : m1.running = true := by
          simpa [Mplayer.running, hl.1] using hr
        obtain ⟨⟨w, hw⟩, ⟨r, hr2⟩⟩ := h1 hr1
        exact ⟨⟨w, by rw [hl.2.1, hw]⟩, Option.isSome_iff_exists.1 (hl.2.2 (by simp [hr2]))⟩


/-! ## The end of the output pipe -/

/-- How a read ends on a pipe that has nothing more to deliver: with the error of the
closed pipe, or never. -/
theorem ReadStringLoop_drained (delim : Byte) :
    ∀ (fuel : Nat) (b : Reader) (rd : ReadPipe) (full : GoString),
      b.err = none → 0 < b.size → (∀ c ∈ rd.chunks, c ≠ []) →
      delim ∉ b.buf ++ rd.chunks.flatten →
      2 * rd.size + (if b.size ≤ b.buf.length then 1 else 0) + 2 ≤ fuel →
      (ReadStringLoop fuel b rd delim full).1 =
        (match rd.closed with
          | some e => .returns (full ++ b.buf ++ rd.chunks.flatten, some e)
          | none => .hangs) := by
  intro fuel
  induction fuel with
  | zero => intro b rd full _ _ _ _ hf; omega
  | succ fuel ih =>
    intro b rd full herr hsize hne hno hf
    have hbuf : delim ∉ b.buf := fun h => hno (by simp [h])
    unfold ReadStringLoop
    rw [(IndexByte_eq_none_iff b.buf delim).2 hbuf]
    simp only [herr]
    by_cases hfull : b.size ≤ b.buf.length
    · rw [if_pos hfull]
      rw [if_pos hfull] at hf
      have hb0 : ¬ (b.size ≤ ([] : GoString).length) := by simp; omega
      rw [ih ⟨b.size, [], none⟩ rd (full ++ b.buf) rfl hsize hne
        (fun h => hno (by simp at h ⊢; exact Or.inr h)) (by simp only [if_neg hb0]; omega)]
      simp
    · rw [if_neg hfull]
      rw [if_neg hfull] at hf
      cases hch : rd.chunks with
      | nil =>
        cases hcl : rd.closed with
        | none => simp [ReadPipe.Read, hch, hcl]
        | some e =>
          have hread : rd.Read (b.size - b.buf.length) =
              (.returns ([], some e), { rd with reads := rd.reads + 1 }) := by
            simp [ReadPipe.Read, hch, hcl]
          rw [hread]
          simp only
          obtain ⟨fuel, rfl⟩ : ∃ k, fuel = k + 1 := ⟨fuel - 1, by omega⟩
          unfold ReadStringLoop
          simp [(IndexByte_eq_none_iff b.buf delim).2 hbuf]
      | cons c cs =>
        have hc : c ≠ [] := hne c (by simp [hch])
        have hcpos : 0 < c.length := List.length_pos.2 hc
        have hsz : rd.size = c.length + (cs.map List.length).sum := by
          simp [ReadPipe.size, hch]
        rw [hch] at hno
        by_cases hle : c.length ≤ b.size - b.buf.length
        · have hread : rd.Read (b.size - b.buf.length) =
              (.returns (c, none), { rd with chunks := cs, reads := rd.reads + 1 }) := by
            simp [ReadPipe.Read, hch, hc, hle]
          rw [hread]
          simp only
          rw [ih ⟨b.size, b.buf ++ c, none⟩ { rd with chunks := cs, reads := rd.reads + 1 } full
            rfl hsize (fun x hx => hne x (by simp [hch, hx]))
            (by simpa [List.append_assoc] using hno)
            (by simp only [ReadPipe.size]; split <;> omega)]
          simp [List.append_assoc]
        · have hread : rd.Read (b.size - b.buf.length) =
              (.returns (c.take (b.size - b.buf.length), none),
                { rd with chunks := c.drop (b.size - b.buf.length) :: cs, reads := rd.reads + 1 }) := by
            simp [ReadPipe.Read, hch, hc, hle]
          rw [hread]
          simp only
          have hsplit : b.buf ++ c.take (b.size - b.buf.length) ++
              (c.drop (b.size - b.buf.length) :: cs).flatten = b.buf ++ (c :: cs).flatten := by
            rw [List.flatten_cons, List.flatten_cons, List.append_assoc,
              ← List.append_assoc (List.take _ c), List.take_append_drop]
          rw [ih ⟨b.size, b.buf ++ c.take (b.size - b.buf.length), none⟩
            { rd with chunks := c.drop (b.size - b.buf.length) :: cs, reads := rd.reads + 1 } full
            rfl hsize
            (by
              intro x hx
              simp at hx
              rcases hx with hx | hx
              · rw [hx]; intro e
                have := congrArg List.length e
                simp at this; omega
              · exact hne x (by simp [hch, hx]))
            (by simp only; rw [hsplit]; exact hno)
            (by
              simp only [ReadPipe.size, List.map_cons, List.sum_cons, List.length_drop]
              split <;> omega)]
          simp only
          rw [List.append_assoc full, hsplit, List.append_assoc]


/-- The loop of `readAns` on a pipe that holds the lines `ds`, none starting with `ANS_`, and
then bytes `tail` without a newline: after reading past the lines it ends with the error of
the closed pipe, or blocks for ever on a pipe that stays open. -/
theorem readAnsLoop_ends (tail : GoString) (ht : (10 : Byte) ∉ tail) :
    ∀ (ds : List GoString) (fuel : Nat) (b : Reader) (rd : ReadPipe),
      b.err = none → 0 < b.size → (∀ c ∈ rd.chunks, c ≠ []) →
      (∀ d ∈ ds, (10 : Byte) ∉ d ∧ HasPrefix (d ++ [10]) (bytes "ANS_") = false) →
      b.buf ++ rd.chunks.flatten = (ds.map (· ++ [10])).flatten ++ tail →
      ds.length + 1 ≤ fuel →
      (readAnsLoop fuel b rd).1 =
        (match rd.closed with
          | some e => .returns (tail, some e)
          | none => .hangs) := by
  intro ds
  induction ds with
  | nil =>
    intro fuel b rd herr hsize hne _ hflat hf
    obtain ⟨fuel, rfl⟩ : ∃ k, fuel = k + 1 := ⟨fuel - 1, by simp at hf; omega⟩
    have hflat2 : b.buf ++ rd.chunks.flatten = tail := by simpa using hflat
    have hd := ReadStringLoop_drained 10 (2 * rd.size + 3) b rd [] herr hsize hne
      (by rw [hflat2]; exact ht) (by split <;> omega)
    unfold readAnsLoop
    unfold Reader.ReadString
    rcases hval : ReadStringLoop (2 * rd.size + 3) b rd 10 [] with ⟨o, b1, rd1⟩
    rw [hval] at hd
    simp only at hd
    subst hd
    cases rd.closed with
    | none => rfl
    | some e => simp [hflat2]
  | cons d ds ih =>
    intro fuel b rd herr hsize hne hds hflat hf
    obtain ⟨fuel, rfl⟩ : ∃ k, fuel = k + 1 := ⟨fuel - 1, by simp at hf; omega⟩
    have hd := hds d (by simp)
    obtain ⟨b1, rd1, h1, h2, h3, h4, h5, h6⟩ := ReadString_rest b rd 10 d
      ((ds.map (· ++ [10])).flatten ++ tail) herr hsize hne
      (by rw [hflat]; simp [List.append_assoc]) hd.1
    unfold readAnsLoop
    rw [h1]
    simp only [hd.2]
    rw [← h6]
    exact ih fuel b1 rd1 h2 (by rw [h3]; exact hsize) h4
      (fun x hx => hds x (by simp [hx])) h5 (by simp at hf; omega)

/-- On a live session whose command write succeeds and whose output pipe holds only lines
that do not start with `ANS_`, followed by bytes without a newline (be they `ANS_path=x`),
`getProperty` returns the empty string with the error of the closed pipe, and blocks for ever
if the pipe stays open. -/
theorem getProperty_ends (m : Mplayer) (w : WritePipe) (rd : ReadPipe) (ds : List GoString)
    (name tail : GoString) (hr : m.running = true) (hw : m.stdin = some w)
    (hwok : w.next = none) (hout : m.stdout = some rd) (hne : ∀ c ∈ rd.chunks, c ≠ [])
    (hds : ∀ d ∈ ds, (10 : Byte) ∉ d ∧ HasPrefix (d ++ [10]) (bytes "ANS_") = false)
    (hflat : rd.chunks.flatten = (ds.map (· ++ [10])).flatten ++ tail)
    (ht : (10 : Byte) ∉ tail) :
    (m.getProperty name).1 =
      (match rd.closed with
        | some e => .returns ([], some e)
        | none => .hangs) := by
  have hfuel : ds.length + 1 ≤ rd.size + 1 := by
    have h1 := length_le_flatten_lines ds
    have h2 := size_eq_length_flatten rd
    rw [hflat] at h2
    simp at h1 h2 ⊢
    omega
  have hl := readAnsLoop_ends tail ht ds (rd.size + 1) NewReader rd rfl (by decide) hne hds
    (by simpa [NewReader] using hflat) hfuel
  have hloop : ∀ m1 : Mplayer, m1.stdout = some rd →
      (getPropertyLoop m1.budget m1 name).1 =
        (match rd.closed with
          | some e => .returns ([], some e)
          | none => .hangs) := by
    intro m1 hout1
    simp only [Mplayer.budget, hout1]
    unfold getPropertyLoop Mplayer.readAns
    simp only [hout1]
    rcases hval : readAnsLoop (rd.size + 1) NewReader rd with ⟨o, b1, rd1⟩
    rw [hval] at hl
    simp only at hl
    subst hl
    cases rd.closed with
    | none => rfl
    | some e => rfl
  unfold Mplayer.getProperty
  rw [sendCmd_running m w _ _ hr hw, hwok]
  simp only [hr, Bool.not_true, Bool.false_eq_true, if_false]
  exact hloop _ hout


/-- Two runs of `getProperty("path")` that go as intended: the answer comes after two
diagnostic lines, cut into reads in the middle of lines; and the pipe closes after a
diagnostic line and an answer line that lacks its newline. -/
theorem getProperty_intended_runs :
    ((liveSession (pipeOf ["Starting playb", "ack...\nA:   0.1\nANS_pa", "th=/m/a.mkv\nA:"] none)).getProperty
      (bytes "path")).1 = .returns (bytes "/m/a.mkv", none) ∧
    ((liveSession (pipeOf ["Exiting... (Quit)\nANS_path=x"] (some Error.EOF))).getProperty
      (bytes "path")).1 = .returns ([], some Error.EOF) :=
  ⟨getProperty_skips_diagnostics _ ⟨[], []⟩ _ [bytes "Starting playback...", bytes "A:   0.1"]
      (bytes "path") (bytes "/m/a.mkv") (bytes "A:") (by decide) rfl (by decide) rfl (by decide)
      (by decide) (by decide) (by decide) (by decide) (by decide),
    getProperty_ends _ ⟨[], []⟩ (pipeOf ["Exiting... (Quit)\nANS_path=x"] (some Error.EOF))
      [bytes "Exiting... (Quit)"] (bytes "path") (bytes "ANS_path=x") (by decide) rfl (by decide)
      rfl (by decide) (by decide) (by decide) (by decide)⟩

end Backend
